import Mathlib

/-!
Verification of the graphql-ws `connection_init` handshake
(`v3/crates/graphql/graphql-ws/src/protocol/init.rs`).

The Rust code is embedded shallowly:

* `http::HeaderMap` is modelled as a single-valued association list
  `HeaderMap := List (String × String)` whose `insert` replaces the value of an
  existing key in place (as `http::HeaderMap::insert` does) and whose `extend`
  folds `insert` over the second map (as `HeaderMap::extend` does for
  single-valued maps).
* `http::HeaderName::from_bytes` is modelled by `headerNameOfString`: a name is
  valid iff it is nonempty and every byte is a token byte of the `http` crate's
  `HEADER_CHARS` table; uppercase ASCII letters are normalized to lowercase.
* `http::HeaderValue::from_str` is modelled by `headerValueOfString`: a value
  is valid iff every byte `b` satisfies `b = 9 ∨ (32 ≤ b ∧ b ≠ 127)`.
* The async authenticator (`hasura_authn::authenticate`) and authorizer
  (`hasura_authn_core::authorize_identity`) are external collaborators: they
  are passed to the initializer as function parameters over abstract types
  `A` (AuthError), `E` (SessionError), `I` (Identity), `S` (Session).
* `handle_connection_init` (here `handleConnInit`) is modelled as a pure
  function from the current `ConnectionInitState` to the new state together
  with the list of wire messages sent on the connection; the tracing wrapper
  is semantically transparent and is dropped.
-/

/-- Lowercase a single ASCII character, as the `http` crate's header-name
normalization does byte by byte. -/
def lowerChar (c : Char) : Char :=
  if 65 ≤ c.toNat ∧ c.toNat ≤ 90 then Char.ofNat (c.toNat + 32) else c

/-- Lowercase every character of a string. -/
def lowerString (s : String) : String := String.mk (s.data.map lowerChar)

/-- Valid header-name bytes per the `http` crate's `HEADER_CHARS` table:
the token characters `! # $ % & \x27 * + - . 0-9 A-Z ^ _ \x60 a-z | ~`. -/
def isNameByte (b : Nat) : Bool :=
  b == 33 || (decide (35 ≤ b) && decide (b ≤ 39)) || b == 42 || b == 43 ||
  b == 45 || b == 46 || (decide (48 ≤ b) && decide (b ≤ 57)) ||
  (decide (65 ≤ b) && decide (b ≤ 90)) || b == 94 || b == 95 || b == 96 ||
  (decide (97 ≤ b) && decide (b ≤ 122)) || b == 124 || b == 126

/-- Valid header-value bytes per `http::HeaderValue::from_str`:
horizontal tab, or any byte that is at least 32 and is not DEL (127). -/
def isValueChar (c : Char) : Bool :=
  c.toNat == 9 || (decide (32 ≤ c.toNat) && c.toNat != 127)

/-- A string is a valid header name iff it is nonempty and all of its
characters are token characters. -/
def isValidName (s : String) : Bool :=
  !s.data.isEmpty && s.data.all (fun c => isNameByte c.toNat)

/-- A string is a valid header value iff all of its characters are valid
header-value characters. -/
def isValidValue (s : String) : Bool :=
  s.data.all isValueChar

/-- Model of `http::HeaderName::from_bytes`: validate and normalize to
lowercase, or fail. -/
def headerNameOfString (s : String) : Option String :=
  if isValidName s then some (lowerString s) else none

/-- Model of `http::HeaderValue::from_str`: validate, or fail. -/
def headerValueOfString (s : String) : Option String :=
  if isValidValue s then some s else none

/-- Model of `http::HeaderMap`, restricted to single-valued maps. -/
abbrev HeaderMap := List (String × String)

/-- Model of `http::HeaderMap::new`. -/
def hmNew : HeaderMap := []

/-- Model of `http::HeaderMap::contains_key`. -/
def hmContains (m : HeaderMap) (k : String) : Bool :=
  m.any (fun p => p.1 == k)

/-- Model of `http::HeaderMap::insert`: replace the value of an existing key
in place, otherwise append the new entry. -/
def hmInsert (m : HeaderMap) (k v : String) : HeaderMap :=
  if hmContains m k then m.map (fun p => if p.1 == k then (k, v) else p)
  else m ++ [(k, v)]

/-- Model of `http::HeaderMap::get`: first (and, in a well-formed map, only)
binding of the key. -/
def hmLookup : HeaderMap → String → Option String
  | [], _ => none
  | p :: t, k => if p.1 == k then some p.2 else hmLookup t k

/-- Model of `headers.extend(client_headers)`: insert every entry of
`client` into `m`, overwriting existing keys. -/
def hmExtend (m client : HeaderMap) : HeaderMap :=
  client.foldl (fun acc p => hmInsert acc p.1 p.2) m

/-- The keys of a header map. -/
def hmKeys (m : HeaderMap) : List String := m.map Prod.fst

/-- `ConnectionInitError` from init.rs. `A` stands for `hasura_authn::AuthError`
and `E` for `hasura_authn_core::SessionError`, both opaque to this subsystem. -/
inductive ConnectionInitError (A E : Type) where
  | AlreadyInitialized
  | InvalidHeaderName (name : String)
  | InvalidHeaderValue (value : String)
  | Authn (e : A)
  | Session (e : E)
deriving DecidableEq

/-- `ConnectionInitState` from types.rs: `S` is the opaque `Session` type. -/
inductive ConnectionInitState (S : Type) where
  | NotInitialized
  | Initialized (session : S) (headers : HeaderMap)
deriving DecidableEq

/-- `InitPayload`: the optional `connection_init` body, a map of header-name
strings to header-value strings (a `HashMap`, embedded as its entry list,
in some iteration order). -/
structure InitPayload where
  headers : List (String × String)
deriving DecidableEq

/-- The protocol server message emitted by this subsystem. -/
inductive ServerMessage where
  | ConnectionAck
deriving DecidableEq

/-- The wire messages `handle_connection_init` can send: a protocol message,
or one of the two error/close frames `ws::Message::too_many_init_requests()`
and `ws::Message::forbidden()`. -/
inductive Message where
  | Protocol (m : ServerMessage)
  | TooManyInitRequests
  | Forbidden
deriving DecidableEq

/-- Loop body of `parse_headers`: fold over the payload entries, parsing the
name and value of each and inserting into the accumulated header map. -/
def parse_headersGo (A E : Type) :
    List (String × String) → HeaderMap → Except (ConnectionInitError A E) HeaderMap
  | [], headers => .ok headers
  | (key, value) :: rest, headers =>
    match headerNameOfString key with
    | none => .error (.InvalidHeaderName key)
    | some header_name =>
      match headerValueOfString value with
      | none => .error (.InvalidHeaderValue value)
      | some header_value =>
        parse_headersGo A E rest (hmInsert headers header_name header_value)

/-- `parse_headers` from init.rs: parse a string-to-string map into a header
map, failing on the first invalid name or value. -/
def parse_headers (A E : Type) (map : List (String × String)) :
    Except (ConnectionInitError A E) HeaderMap :=
  parse_headersGo A E map hmNew

/-- The `initialize` function from init.rs (renamed to avoid a keyword):
reject when already initialized; otherwise parse the payload headers, extend
them with the handshake client headers (handshake wins on conflicts),
authenticate, authorize, and return the session with the effective headers. -/
def initConn (A E S I : Type) (init_state : ConnectionInitState S)
    (client_headers : HeaderMap)
    (authn : HeaderMap → Except A I)
    (authz : I → HeaderMap → Except E S)
    (payload : Option InitPayload) :
    Except (ConnectionInitError A E) (S × HeaderMap) :=
  match init_state with
  | .NotInitialized =>
    match (match payload with
      | some payload => parse_headers A E payload.headers
      | none => Except.ok hmNew) with
    | .error e => .error e
    | .ok parsed =>
      let headers := hmExtend parsed client_headers
      match authn headers with
      | .error e => .error (.Authn e)
      | .ok identity =>
        match authz identity headers with
        | .error e => .error (.Session e)
        | .ok session => .ok (session, headers)
  | .Initialized _ _ => .error .AlreadyInitialized

/-- The error classifier implicit in `handle_connection_init`'s match:
`AlreadyInitialized` maps to the "too many init requests" frame and every
other error to the generic "forbidden" frame. -/
def classifyInitError (A E : Type) (e : ConnectionInitError A E) : Message :=
  match e with
  | .AlreadyInitialized => .TooManyInitRequests
  | _ => .Forbidden

/-- `handle_connection_init` from init.rs, as a pure step function: given the
current protocol-init state and the connection context, produce the new state
and the list of wire messages sent. -/
def handleConnInit (A E S I : Type) (state : ConnectionInitState S)
    (client_headers : HeaderMap)
    (authn : HeaderMap → Except A I)
    (authz : I → HeaderMap → Except E S)
    (payload : Option InitPayload) :
    ConnectionInitState S × List Message :=
  match initConn A E S I state client_headers authn authz payload with
  | .ok (session, headers) =>
    (.Initialized session headers, [.Protocol .ConnectionAck])
  | .error .AlreadyInitialized => (state, [.TooManyInitRequests])
  | .error _ => (state, [.Forbidden])

/-- Test double: an authenticator that accepts every header map. -/
def okAuthn : HeaderMap → Except Unit Unit := fun _ => .ok ()

/-- Test double: an authorizer that accepts every identity. -/
def okAuthz : Unit → HeaderMap → Except Unit Unit := fun _ _ => .ok ()

/-- Test double: an authenticator that rejects every header map. -/
def failAuthn : HeaderMap → Except Unit Unit := fun _ => .error ()

/-- Test double: an authorizer that rejects every identity. -/
def failAuthz : Unit → HeaderMap → Except Unit Unit := fun _ _ => .error ()

/-! ### Header-map lemmas -/

theorem hmContains_iff_mem {m : HeaderMap} {k : String} :
    hmContains m k = true ↔ k ∈ hmKeys m := by
  simp [hmContains, hmKeys, List.any_eq_true, List.mem_map, beq_iff_eq]

theorem hmLookup_none_of_not_contains {m : HeaderMap} {k : String}
    (h : hmContains m k = false) : hmLookup m k = none := by
  induction m with
  | nil => rfl
  | cons p t ih =>
    simp only [hmContains, List.any_cons, Bool.or_eq_false_iff] at h
    simp only [hmLookup, h.1, if_false]
    exact ih h.2

theorem hmLookup_replace_self {m : HeaderMap} {k v : String}
    (hc : hmContains m k = true) :
    hmLookup (m.map (fun p => if p.1 == k then (k, v) else p)) k = some v := by
  induction m with
  | nil => simp [hmContains] at hc
  | cons p t ih =>
    by_cases hpk : p.1 = k
    · simp only [List.map_cons, hpk, beq_self_eq_true, if_true, hmLookup,
        beq_self_eq_true]
    · simp only [hmContains, List.any_cons, Bool.or_eq_true_iff,
        beq_iff_eq, hpk, decide_eq_true_eq, false_or] at hc
      have hpk2 : (p.1 == k) = false := by simp [hpk]
      simp only [List.map_cons, hpk2, Bool.false_eq_true, if_false, hmLookup,
        hpk2]
      exact ih hc

theorem hmLookup_append_single_self {m : HeaderMap} {k v : String}
    (hc : hmContains m k = false) :
    hmLookup (m ++ [(k, v)]) k = some v := by
  induction m with
  | nil => simp [hmLookup]
  | cons p t ih =>
    simp only [hmContains, List.any_cons, Bool.or_eq_false_iff] at hc
    simp only [List.cons_append, hmLookup, hc.1, if_false]
    exact ih hc.2

theorem hmLookup_replace_other {m : HeaderMap} {k v q : String} (hkq : k ≠ q) :
    hmLookup (m.map (fun p => if p.1 == k then (k, v) else p)) q =
      hmLookup m q := by
  induction m with
  | nil => rfl
  | cons p t ih =>
    by_cases hpk : p.1 = k
    · have hpq : (p.1 == q) = false := by
        simp only [beq_eq_false_iff_ne, ne_eq]
        exact fun h => hkq (hpk ▸ h)
      have hkq2 : (k == q) = false := by simp [hkq]
      simp only [List.map_cons, hpk, beq_self_eq_true, if_true, hmLookup,
        hkq2, hpq, Bool.false_eq_true, if_false]
      exact ih
    · have hpk2 : (p.1 == k) = false := by simp [hpk]
      simp only [List.map_cons, hpk2, Bool.false_eq_true, if_false, hmLookup]
      by_cases hpq : p.1 = q
      · simp [hpq]
      · have hpq2 : (p.1 == q) = false := by simp [hpq]
        simp only [hpq2, Bool.false_eq_true, if_false]
        exact ih

theorem hmLookup_append_single_other {m : HeaderMap} {k v q : String}
    (hkq : k ≠ q) :
    hmLookup (m ++ [(k, v)]) q = hmLookup m q := by
  induction m with
  | nil => simp [hmLookup, hkq]
  | cons p t ih =>
    by_cases hpq : p.1 = q
    · simp [List.cons_append, hmLookup, hpq]
    · have hpq2 : (p.1 == q) = false := by simp [hpq]
      simp only [List.cons_append, hmLookup, hpq2, Bool.false_eq_true, if_false]
      exact ih

theorem hmLookup_insert_self {m : HeaderMap} {k v : String} :
    hmLookup (hmInsert m k v) k = some v := by
  unfold hmInsert
  by_cases hc : hmContains m k = true
  · simp only [hc, if_true]
    exact hmLookup_replace_self hc
  · simp only [hc, if_false]
    exact hmLookup_append_single_self (by simpa using hc)

theorem hmLookup_insert_other {m : HeaderMap} {k v q : String} (hkq : k ≠ q) :
    hmLookup (hmInsert m k v) q = hmLookup m q := by
  unfold hmInsert
  by_cases hc : hmContains m k = true
  · simp only [hc, if_true]
    exact hmLookup_replace_other hkq
  · simp only [hc, if_false]
    exact hmLookup_append_single_other hkq

theorem hmExtend_cons {m : HeaderMap} {p : String × String} {t : HeaderMap} :
    hmExtend m (p :: t) = hmExtend (hmInsert m p.1 p.2) t := rfl

theorem hmContains_append {m n : HeaderMap} {k : String} :
    hmContains (m ++ n) k = (hmContains m k || hmContains n k) := by
  simp [hmContains, List.any_append]

theorem hmInsert_of_not_contains {m : HeaderMap} {k v : String}
    (h : hmContains m k = false) : hmInsert m k v = m ++ [(k, v)] := by
  unfold hmInsert
  simp [h]

theorem hmLookup_extend_of_not_contains {l : HeaderMap} {k : String}
    (h : hmContains l k = false) :
    ∀ m, hmLookup (hmExtend m l) k = hmLookup m k := by
  induction l with
  | nil => intro m; rfl
  | cons p t ih =>
    intro m
    simp only [hmContains, List.any_cons, Bool.or_eq_false_iff] at h
    rw [hmExtend_cons, ih h.2, hmLookup_insert_other]
    exact fun he => by simp [he] at h

theorem hmLookup_extend_of_contains {l : HeaderMap} {k : String}
    (hnd : (hmKeys l).Nodup) (hc : hmContains l k = true) :
    ∀ m, hmLookup (hmExtend m l) k = hmLookup l k := by
  induction l with
  | nil => simp [hmContains] at hc
  | cons p t ih =>
    intro m
    simp only [hmKeys, List.map_cons, List.nodup_cons] at hnd
    by_cases hpk : p.1 = k
    · have hct : hmContains t k = false := by
        rcases hb : hmContains t k with _ | _
        · rfl
        · exact absurd (hpk ▸ hmContains_iff_mem.mp hb) hnd.1
      rw [hmExtend_cons, hmLookup_extend_of_not_contains hct, hpk,
        hmLookup_insert_self]
      simp [hmLookup, hpk]
    · have hct : hmContains t k = true := by
        simp only [hmContains, List.any_cons, Bool.or_eq_true_iff,
          beq_iff_eq, hpk, false_or] at hc
        exact hc
      rw [hmExtend_cons, ih hnd.2 hct]
      simp [hmLookup, hpk]

theorem hmExtend_append_of_disjoint {l : HeaderMap}
    (hnd : (hmKeys l).Nodup) :
    ∀ m, (∀ k ∈ hmKeys l, hmContains m k = false) → hmExtend m l = m ++ l := by
  induction l with
  | nil => intro m _; simp [hmExtend]
  | cons p t ih =>
    intro m hd
    simp only [hmKeys, List.map_cons, List.nodup_cons] at hnd
    have h1 : hmContains m p.1 = false := hd p.1 (by simp [hmKeys])
    rw [hmExtend_cons, hmInsert_of_not_contains h1,
      ih hnd.2 (m ++ [(p.1, p.2)]) ?_, List.append_assoc]
    · simp
    · intro k hk
      rw [hmContains_append]
      have hk2 : hmContains m k = false := hd k (List.mem_cons_of_mem p.1 hk)
      have hk3 : hmContains [(p.1, p.2)] k = false := by
        simp only [hmContains, List.any_cons, List.any_nil, Bool.or_false,
          beq_iff_eq]
        simp only [hmKeys] at hk
        exact decide_eq_false (fun he : p.1 = k => hnd.1 (he ▸ hk))
      rw [hk2, hk3]
      rfl

theorem hmKeys_replace {m : HeaderMap} {k v : String} :
    hmKeys (m.map (fun p => if p.1 == k then (k, v) else p)) = hmKeys m := by
  induction m with
  | nil => rfl
  | cons p t ih =>
    by_cases hpk : p.1 = k
    · subst hpk
      simp only [hmKeys, List.map_cons, beq_self_eq_true, if_true] at ih ⊢
      exact congrArg _ ih
    · have hpk2 : (p.1 == k) = false := by simp [hpk]
      simp only [hmKeys, List.map_cons, hpk2, Bool.false_eq_true, if_false] at ih ⊢
      exact congrArg _ ih

theorem hmKeys_insert_nodup {m : HeaderMap} {k v : String}
    (hnd : (hmKeys m).Nodup) : (hmKeys (hmInsert m k v)).Nodup := by
  unfold hmInsert
  rcases hc : hmContains m k with _ | _
  · simp only [Bool.false_eq_true, if_false]
    have hk : k ∉ hmKeys m := fun hmem =>
      by rw [hmContains_iff_mem.mpr hmem] at hc; cases hc
    simp only [hmKeys, List.map_append, List.map_cons, List.map_nil]
    rw [List.nodup_append]
    refine ⟨hnd, List.nodup_singleton k, ?_⟩
    intro a ha hb
    simp only [List.mem_singleton] at hb
    exact hk (hb ▸ ha)
  · simp only [if_true]
    rw [hmKeys_replace]
    exact hnd

/-! ### Parsing lemmas -/

theorem parse_headersGo_error_shape {A E : Type}
    {l : List (String × String)} {e : ConnectionInitError A E} :
    ∀ acc, parse_headersGo A E l acc = .error e →
    (∃ n, e = .InvalidHeaderName n) ∨ (∃ v, e = .InvalidHeaderValue v) := by
  induction l with
  | nil => intro acc h; cases h
  | cons p t ih =>
    obtain ⟨key, value⟩ := p
    intro acc h
    simp only [parse_headersGo] at h
    cases hn : headerNameOfString key with
    | none =>
      rw [hn] at h
      injection h with h2
      exact Or.inl ⟨key, h2.symm⟩
    | some name =>
      rw [hn] at h
      cases hv : headerValueOfString value with
      | none =>
        rw [hv] at h
        injection h with h2
        exact Or.inr ⟨value, h2.symm⟩
      | some w =>
        rw [hv] at h
        exact ih _ h

theorem parse_headersGo_ok_nodup {A E : Type}
    {l : List (String × String)} {m : HeaderMap} :
    ∀ acc, (hmKeys acc).Nodup → parse_headersGo A E l acc = .ok m →
    (hmKeys m).Nodup := by
  induction l with
  | nil =>
    intro acc hnd h
    injection h with h2
    exact h2 ▸ hnd
  | cons p t ih =>
    obtain ⟨key, value⟩ := p
    intro acc hnd h
    simp only [parse_headersGo] at h
    cases hn : headerNameOfString key with
    | none => rw [hn] at h; cases h
    | some name =>
      rw [hn] at h
      cases hv : headerValueOfString value with
      | none => rw [hv] at h; cases h
      | some w =>
        rw [hv] at h
        exact ih _ (hmKeys_insert_nodup hnd) h

theorem headerNameOfString_of_valid {s : String} (h : isValidName s = true) :
    headerNameOfString s = some (lowerString s) := by
  unfold headerNameOfString
  simp [h]

theorem headerValueOfString_of_valid {s : String} (h : isValidValue s = true) :
    headerValueOfString s = some s := by
  unfold headerValueOfString
  simp [h]

theorem parse_headersGo_ok_append {A E : Type} {l : List (String × String)}
    (hval : ∀ p ∈ l, isValidName p.1 = true ∧ isValidValue p.2 = true)
    (hnd : (l.map (fun p => lowerString p.1)).Nodup) :
    ∀ acc, (∀ p ∈ l, hmContains acc (lowerString p.1) = false) →
    parse_headersGo A E l acc =
      .ok (acc ++ l.map (fun p => (lowerString p.1, p.2))) := by
  induction l with
  | nil => intro acc _; simp [parse_headersGo]
  | cons p t ih =>
    intro acc hdisj
    obtain ⟨key, value⟩ := p
    have hv := hval (key, value) (List.mem_cons_self _ _)
    simp only [List.map_cons, List.nodup_cons] at hnd
    simp only [parse_headersGo, headerNameOfString_of_valid hv.1,
      headerValueOfString_of_valid hv.2]
    rw [hmInsert_of_not_contains (hdisj (key, value) (List.mem_cons_self _ _))]
    rw [ih (fun q hq => hval q (List.mem_cons_of_mem _ hq)) hnd.2
      (acc ++ [(lowerString key, value)]) ?_]
    · rw [List.append_assoc]
      rfl
    · intro q hq
      rw [hmContains_append]
      have h1 : hmContains acc (lowerString q.1) = false :=
        hdisj q (List.mem_cons_of_mem _ hq)
      have h2 : hmContains [(lowerString key, value)] (lowerString q.1) = false := by
        simp only [hmContains, List.any_cons, List.any_nil, Bool.or_false,
          beq_iff_eq]
        refine decide_eq_false (fun he => hnd.1 ?_)
        rw [he]
        exact List.mem_map_of_mem _ hq
      rw [h1, h2]
      rfl

/-! ### Shared handler lemmas -/

theorem handleConnInit_error_forbidden {A E S I : Type}
    {e : ConnectionInitError A E} (hne : e ≠ .AlreadyInitialized)
    {st : ConnectionInitState S} {ch : HeaderMap}
    {an : HeaderMap → Except A I} {az : I → HeaderMap → Except E S}
    {p : Option InitPayload}
    (r : initConn A E S I st ch an az p = .error e) :
    handleConnInit A E S I st ch an az p = (st, [.Forbidden]) := by
  simp only [handleConnInit]
  rw [r]
  cases e with
  | AlreadyInitialized => exact absurd rfl hne
  | InvalidHeaderName n => rfl
  | InvalidHeaderValue v => rfl
  | Authn a => rfl
  | Session s => rfl

/-! ### Claim theorems -/

/-- C1: for every header key present in both the parsed `connection_init`
payload headers and the handshake headers, the merged effective header map
binds that key to the handshake value, never the payload value. -/
theorem effective_headers_handshake_wins
    (payload_headers handshake : HeaderMap) (k : String)
    (hnd : (hmKeys handshake).Nodup) (hc : hmContains handshake k = true) :
    hmLookup (hmExtend payload_headers handshake) k = hmLookup handshake k :=
  hmLookup_extend_of_contains hnd hc payload_headers

/-- Witness for C1, at the spec's own example: payload role `admin`,
handshake role `user`; the merged map yields `user`. -/
theorem effective_headers_handshake_wins_witness :
    (hmKeys [("x-hasura-role", "user")]).Nodup ∧
    hmContains [("x-hasura-role", "user")] "x-hasura-role" = true ∧
    hmLookup (hmExtend [("x-hasura-role", "admin")] [("x-hasura-role", "user")])
      "x-hasura-role" = some "user" :=
  ⟨by decide, by decide,
    (effective_headers_handshake_wins [("x-hasura-role", "admin")]
      [("x-hasura-role", "user")] "x-hasura-role" (by decide)
      (by decide)).trans (by decide)⟩

/-- C2: once the connection state is `Initialized{session, headers}`, handling
another `connection_init` never changes it: the handler leaves the state
exactly as set by the first successful initialization and emits the
"too many init requests" signal, for every payload and every behavior of the
authenticator and authorizer. -/
theorem initialized_state_is_terminal (A E S I : Type) (s : S)
    (h ch : HeaderMap) (an : HeaderMap → Except A I)
    (az : I → HeaderMap → Except E S) (p : Option InitPayload) :
    handleConnInit A E S I (.Initialized s h) ch an az p =
      (.Initialized s h, [.TooManyInitRequests]) := rfl

/-- C3: if the current state passed to the initializer is `Initialized`, it
returns `Err(AlreadyInitialized)` immediately; the result is the same for
every payload, every handshake header map, and every authenticator and
authorizer, so none of them is consulted. -/
theorem already_initialized_short_circuits (A E S I : Type) (s : S)
    (h ch : HeaderMap) (an : HeaderMap → Except A I)
    (az : I → HeaderMap → Except E S) (p : Option InitPayload) :
    initConn A E S I (.Initialized s h) ch an az p =
      .error .AlreadyInitialized ∧
    ∀ (ch2 : HeaderMap) (an2 : HeaderMap → Except A I)
      (az2 : I → HeaderMap → Except E S) (p2 : Option InitPayload),
      initConn A E S I (.Initialized s h) ch an az p =
        initConn A E S I (.Initialized s h) ch2 an2 az2 p2 :=
  ⟨rfl, fun _ _ _ _ => rfl⟩

/-- C5: the error classification is total on the five-member error taxonomy
and lands on exactly two wire signals: `AlreadyInitialized` maps to "too many
init requests" and every other kind maps to "forbidden"; the handler always
sends exactly the classified message and never lets the error escape. -/
theorem init_error_classification (A E : Type) (e : ConnectionInitError A E) :
    (classifyInitError A E e = .TooManyInitRequests ↔
      e = .AlreadyInitialized) ∧
    (classifyInitError A E e = .TooManyInitRequests ∨
      classifyInitError A E e = .Forbidden) ∧
    ∀ (S I : Type) (st : ConnectionInitState S) (ch : HeaderMap)
      (an : HeaderMap → Except A I) (az : I → HeaderMap → Except E S)
      (p : Option InitPayload),
      initConn A E S I st ch an az p = .error e →
      handleConnInit A E S I st ch an az p =
        (st, [classifyInitError A E e]) := by
  refine ⟨?_, ?_, ?_⟩
  · cases e <;> simp [classifyInitError]
  · cases e <;> simp [classifyInitError]
  · intro S I st ch an az p he
    simp only [handleConnInit]
    rw [he]
    cases e <;> rfl

/-- Witness for C5 at a duplicate-init input: the handler classifies
`AlreadyInitialized` as "too many init requests". -/
theorem init_error_classification_witness :
    handleConnInit Unit Unit Unit Unit (.Initialized () []) [] okAuthn okAuthz
      none = (.Initialized () [], [classifyInitError Unit Unit
        .AlreadyInitialized]) :=
  (init_error_classification Unit Unit .AlreadyInitialized).2.2 Unit Unit
    (.Initialized () []) [] okAuthn okAuthz none rfl

/-- C6: the connection state cell is written only on the `Ok` outcome of the
initializer, where it becomes `Initialized{session, headers}`; on every error
outcome the state is exactly what it was before the message was handled. -/
theorem init_error_leaves_state_untouched (A E S I : Type)
    (st : ConnectionInitState S) (ch : HeaderMap)
    (an : HeaderMap → Except A I) (az : I → HeaderMap → Except E S)
    (p : Option InitPayload) :
    (∀ e : ConnectionInitError A E,
      initConn A E S I st ch an az p = .error e →
      (handleConnInit A E S I st ch an az p).1 = st) ∧
    (∀ (s : S) (h : HeaderMap),
      initConn A E S I st ch an az p = .ok (s, h) →
      handleConnInit A E S I st ch an az p =
        (.Initialized s h, [.Protocol .ConnectionAck])) := by
  constructor
  · intro e he
    simp only [handleConnInit]
    rw [he]
    cases e <;> rfl
  · intro s h hok
    simp only [handleConnInit]
    rw [hok]

/-- Witness for C6: a run whose authenticator rejects leaves the state at
`NotInitialized`. -/
theorem init_error_leaves_state_untouched_witness :
    (handleConnInit Unit Unit Unit Unit .NotInitialized [] failAuthn okAuthz
      none).1 = ConnectionInitState.NotInitialized :=
  (init_error_leaves_state_untouched Unit Unit Unit Unit .NotInitialized []
    failAuthn okAuthz none).1 (.Authn ()) rfl

/-- C7: any two runs of the handler that fail with different
non-`AlreadyInitialized` causes send the identical generic "forbidden" wire
message; no detail of the underlying error influences what is sent. -/
theorem forbidden_message_uniform
    (A1 E1 S1 I1 A2 E2 S2 I2 : Type)
    (e1 : ConnectionInitError A1 E1) (e2 : ConnectionInitError A2 E2)
    (st1 : ConnectionInitState S1) (st2 : ConnectionInitState S2)
    (ch1 ch2 : HeaderMap)
    (an1 : HeaderMap → Except A1 I1) (az1 : I1 → HeaderMap → Except E1 S1)
    (an2 : HeaderMap → Except A2 I2) (az2 : I2 → HeaderMap → Except E2 S2)
    (p1 p2 : Option InitPayload)
    (h1 : e1 ≠ .AlreadyInitialized) (h2 : e2 ≠ .AlreadyInitialized)
    (r1 : initConn A1 E1 S1 I1 st1 ch1 an1 az1 p1 = .error e1)
    (r2 : initConn A2 E2 S2 I2 st2 ch2 an2 az2 p2 = .error e2) :
    (handleConnInit A1 E1 S1 I1 st1 ch1 an1 az1 p1).2 =
      (handleConnInit A2 E2 S2 I2 st2 ch2 an2 az2 p2).2 ∧
    (handleConnInit A1 E1 S1 I1 st1 ch1 an1 az1 p1).2 = [.Forbidden] := by
  have k1 := handleConnInit_error_forbidden h1 r1
  have k2 := handleConnInit_error_forbidden h2 r2
  rw [k1, k2]
  exact ⟨rfl, rfl⟩

/-- Witness for C7: an authentication failure and an authorization failure
produce the same single "forbidden" message. -/
theorem forbidden_message_uniform_witness :
    (handleConnInit Unit Unit Unit Unit .NotInitialized [] failAuthn okAuthz
      none).2 =
      (handleConnInit Unit Unit Unit Unit .NotInitialized [] okAuthn failAuthz
        none).2 ∧
    (handleConnInit Unit Unit Unit Unit .NotInitialized [] failAuthn okAuthz
      none).2 = [Message.Forbidden] :=
  forbidden_message_uniform Unit Unit Unit Unit Unit Unit Unit Unit
    (.Authn ()) (.Session ()) .NotInitialized .NotInitialized [] []
    failAuthn okAuthz okAuthn failAuthz none none (by decide) (by decide)
    rfl rfl

/-- C4: a payload with a syntactically invalid header name or value makes the
initializer fail with `InvalidHeaderName` or `InvalidHeaderValue` (those are
the only errors parsing can produce), the same error for every authenticator
and authorizer — so neither collaborator is ever consulted — and the client
observes only the "forbidden" signal, with the state left `NotInitialized`. -/
theorem invalid_header_rejected_before_auth (A E : Type)
    (payload : InitPayload) (e : ConnectionInitError A E)
    (hp : parse_headers A E payload.headers = .error e) :
    ((∃ n, e = .InvalidHeaderName n) ∨ (∃ v, e = .InvalidHeaderValue v)) ∧
    ∀ (S I : Type) (ch : HeaderMap) (an : HeaderMap → Except A I)
      (az : I → HeaderMap → Except E S),
      initConn A E S I .NotInitialized ch an az (some payload) = .error e ∧
      handleConnInit A E S I .NotInitialized ch an az (some payload) =
        (.NotInitialized, [.Forbidden]) := by
  have hshape := parse_headersGo_error_shape hmNew hp
  refine ⟨hshape, ?_⟩
  intro S I ch an az
  have hinit : initConn A E S I .NotInitialized ch an az (some payload) =
      .error e := by
    simp only [initConn]
    rw [hp]
  refine ⟨hinit, ?_⟩
  have hne : e ≠ .AlreadyInitialized := by
    rcases hshape with ⟨n, rfl⟩ | ⟨v, rfl⟩ <;> intro hcon <;> cases hcon
  exact handleConnInit_error_forbidden hne hinit

/-- Witness for C4: a header name containing a space is rejected with
`InvalidHeaderName` for an arbitrary (accepting) authenticator pair. -/
theorem invalid_header_rejected_before_auth_witness :
    parse_headers Unit Unit [("bad name", "x")] =
      .error (.InvalidHeaderName "bad name") ∧
    initConn Unit Unit Unit Unit .NotInitialized [] okAuthn okAuthz
      (some ⟨[("bad name", "x")]⟩) = .error (.InvalidHeaderName "bad name") :=
  ⟨rfl, ((invalid_header_rejected_before_auth Unit Unit ⟨[("bad name", "x")]⟩
    (.InvalidHeaderName "bad name") rfl).2 Unit Unit [] okAuthn okAuthz).1⟩

/-- C8: the header merger starts from the parsed payload headers (or the
empty map when the payload is absent) and inserts every handshake entry,
overwriting any existing key; with no payload the effective header set equals
exactly the handshake headers and initialization succeeds given credentials
the authenticator and authorizer accept. -/
theorem header_merger_spec (ch : HeaderMap) (hnd : (hmKeys ch).Nodup) :
    (∀ (p : HeaderMap) (k : String),
      hmLookup (hmExtend p ch) k =
        if hmContains ch k then hmLookup ch k else hmLookup p k) ∧
    hmExtend hmNew ch = ch ∧
    ∀ (A E S I : Type) (i : I) (s : S) (an : HeaderMap → Except A I)
      (az : I → HeaderMap → Except E S),
      an ch = .ok i → az i ch = .ok s →
      initConn A E S I .NotInitialized ch an az none = .ok (s, ch) := by
  have hext : hmExtend hmNew ch = ch := by
    have h := hmExtend_append_of_disjoint hnd hmNew (fun k _ => rfl)
    simpa [hmNew] using h
  refine ⟨?_, hext, ?_⟩
  · intro p k
    rcases hc : hmContains ch k with _ | _
    · simp only [Bool.false_eq_true, if_false]
      exact hmLookup_extend_of_not_contains hc p
    · simp only [if_true]
      exact hmLookup_extend_of_contains hnd hc p
  · intro A E S I i s an az ha hz
    simp only [initConn, hext, ha, hz]

/-- Witness for C8: with no payload and a handshake credential accepted by
the test-double collaborators, initialization succeeds with exactly the
handshake headers as the effective set. -/
theorem header_merger_spec_witness :
    (hmKeys [("authorization", "secret")]).Nodup ∧
    initConn Unit Unit Unit Unit .NotInitialized [("authorization", "secret")]
      okAuthn okAuthz none = .ok ((), [("authorization", "secret")]) :=
  ⟨by decide, (header_merger_spec [("authorization", "secret")]
    (by decide)).2.2 Unit Unit Unit Unit () () okAuthn okAuthz rfl rfl⟩

/-- C9: for a syntactically valid payload and credentials accepted by the
authenticator and authorizer, handling `connection_init` on a
`NotInitialized` connection transitions the state to `Initialized` with the
authorizer's session and the merged effective headers (the very headers both
collaborators were given) and emits exactly one `connection_ack`; every later
init on the resulting state changes nothing and emits no further ack. -/
theorem successful_init_acks_once (A E S I : Type)
    (payload : InitPayload) (ph ch : HeaderMap)
    (an : HeaderMap → Except A I) (az : I → HeaderMap → Except E S)
    (i : I) (s : S)
    (hp : parse_headers A E payload.headers = .ok ph)
    (ha : an (hmExtend ph ch) = .ok i)
    (hz : az i (hmExtend ph ch) = .ok s) :
    handleConnInit A E S I .NotInitialized ch an az (some payload) =
      (.Initialized s (hmExtend ph ch), [.Protocol .ConnectionAck]) ∧
    ∀ p2 : Option InitPayload,
      handleConnInit A E S I (.Initialized s (hmExtend ph ch)) ch an az p2 =
        (.Initialized s (hmExtend ph ch), [.TooManyInitRequests]) := by
  constructor
  · have hinit : initConn A E S I .NotInitialized ch an az (some payload) =
        .ok (s, hmExtend ph ch) := by
      simp only [initConn, hp, ha, hz]
    simp only [handleConnInit]
    rw [hinit]
  · intro p2
    rfl

/-- Witness for C9: a valid payload plus accepting collaborators yields the
initialized state and a single ack. -/
theorem successful_init_acks_once_witness :
    parse_headers Unit Unit [("x-hasura-role", "admin")] =
      .ok [("x-hasura-role", "admin")] ∧
    handleConnInit Unit Unit Unit Unit .NotInitialized [] okAuthn okAuthz
      (some ⟨[("x-hasura-role", "admin")]⟩) =
      (.Initialized () (hmExtend [("x-hasura-role", "admin")] []),
        [.Protocol .ConnectionAck]) :=
  ⟨rfl, (successful_init_acks_once Unit Unit Unit Unit
    ⟨[("x-hasura-role", "admin")]⟩ [("x-hasura-role", "admin")] [] okAuthn
    okAuthz () () rfl rfl rfl).1⟩

/-- C10: payload header names are normalized to lowercase during parsing and
inserted replacing rather than appending: when no two payload keys collide up
to ASCII case (and all entries are syntactically valid), `parse_headers`
returns exactly one entry per payload key, with the lowercased name and the
unchanged value; and every successful parse yields a map with no duplicate
names, so case-colliding keys collapse to a single surviving entry. -/
theorem parse_headers_normalizes (A E : Type) (l : List (String × String))
    (hval : ∀ p ∈ l, isValidName p.1 = true ∧ isValidValue p.2 = true)
    (hnd : (l.map (fun p => lowerString p.1)).Nodup) :
    parse_headers A E l = .ok (l.map (fun p => (lowerString p.1, p.2))) ∧
    ∀ (l2 : List (String × String)) (m : HeaderMap),
      parse_headers A E l2 = .ok m → (hmKeys m).Nodup := by
  constructor
  · have h := @parse_headersGo_ok_append A E l hval hnd hmNew (fun p _ => rfl)
    simpa [parse_headers, hmNew] using h
  · intro l2 m h
    exact parse_headersGo_ok_nodup hmNew List.nodup_nil h

/-- Witness for C10: a mixed-case payload key is lowercased with its value
kept, and a case-colliding pair collapses to one entry. -/
theorem parse_headers_normalizes_witness :
    parse_headers Unit Unit [("X-Hasura-Role", "admin")] =
      .ok [("x-hasura-role", "admin")] ∧
    parse_headers Unit Unit [("X-A", "1"), ("x-a", "2")] =
      .ok [("x-a", "2")] :=
  ⟨(parse_headers_normalizes Unit Unit [("X-Hasura-Role", "admin")]
    (by decide) (by decide)).1, rfl⟩
